import Mathlib

/-!
Shallow embedding of the gallery web application `app.py` (a Flask +
SQLAlchemy photo-gallery CRUD service) and proofs about its operations.

The database session is modelled explicitly: committed rows live in `DB`,
rows added but not yet committed live in a pending list, and a rollback
discards the pending list.  The upload directory (the "File Store") is a
list of filenames.  Python strings are Lean `String`s and the relevant
Python string primitives (`str.split`, `os.path.splitext`,
`werkzeug.utils.secure_filename`, `int(...)`, decimal formatting of a
counter) are embedded as executable functions on `List Char` / `String`.
-/

namespace Gallery

/-! ## Python string primitives -/

/-- Decimal digits, most significant first, by fuelled structural recursion
(fuel `n + 1` always suffices since `n / 10 < n` for `n ≥ 10`). -/
def natDigitsAux : Nat → Nat → List Char
  | 0, _ => []
  | fuel + 1, n =>
    if n < 10 then [Char.ofNat (48 + n)]
    else natDigitsAux fuel (n / 10) ++ [Char.ofNat (48 + n % 10)]

/-- Decimal digits of a natural number, most significant first.
Models how Python's f-string renders the integer `counter`. -/
def natDigits (n : Nat) : List Char :=
  natDigitsAux (n + 1) n

/-- Decimal rendering of a natural number, as Python's `str`/f-string does. -/
def natStr (n : Nat) : String :=
  String.mk (natDigits n)

/-- Value of a digit list, a left inverse for `natDigits`. -/
def digitsVal (cs : List Char) : Nat :=
  cs.foldl (fun acc c => acc * 10 + (c.toNat - 48)) 0

/-- Index of the last occurrence of `c` in `cs`, if any. -/
def lastIdxOf (c : Char) : List Char → Option Nat
  | [] => none
  | x :: xs =>
    match lastIdxOf c xs with
    | some i => some (i + 1)
    | none => if x = c then some 0 else none

/-- `os.path.splitext` on a bare filename (no directory part): split at the
last dot, unless every character before that dot is itself a dot. -/
def splitext (s : String) : String × String :=
  match lastIdxOf '.' s.data with
  | none => (s, "")
  | some i =>
    if (s.data.take i).any (fun c => c ≠ '.') then
      (String.mk (s.data.take i), String.mk (s.data.drop i))
    else (s, "")

/-- Python's `s.split(sep, 1)`: at most one split, at the first occurrence
of `sep`. -/
def pySplit1Aux (sep : Char) : List Char → List Char → List String
  | [], acc => [String.mk acc.reverse]
  | c :: cs, acc =>
    if c = sep then [String.mk acc.reverse, String.mk cs]
    else pySplit1Aux sep cs (c :: acc)

def pySplit1 (s : String) (sep : Char) : List String :=
  pySplit1Aux sep s.data []

/-- Whitespace characters recognised by Python's `str.split()`. -/
def pyIsSpace (c : Char) : Bool :=
  c = ' ' || c = '\t' || c = '\n' || c = '\x0d' || c = '\x0b' || c = '\x0c'

/-- Python's `str.split()` with no arguments: split on runs of whitespace,
dropping empty pieces. -/
def pySplitWsAux : List Char → List Char → List (List Char)
  | [], acc => if acc.isEmpty then [] else [acc.reverse]
  | c :: cs, acc =>
    if pyIsSpace c then
      if acc.isEmpty then pySplitWsAux cs []
      else acc.reverse :: pySplitWsAux cs []
    else pySplitWsAux cs (c :: acc)

/-- Characters kept by `werkzeug`'s filename sanitiser (`[A-Za-z0-9_.-]`). -/
def keepChar (c : Char) : Bool :=
  ('A' ≤ c && c ≤ 'Z') || ('a' ≤ c && c ≤ 'z') || ('0' ≤ c && c ≤ '9') ||
    c = '_' || c = '.' || c = '-'

/-- Strip leading and trailing `.` and `_` characters (`str.strip("._")`). -/
def stripDotUnderscore (cs : List Char) : List Char :=
  ((cs.dropWhile (fun c => c = '.' || c = '_')).reverse.dropWhile
      (fun c => c = '.' || c = '_')).reverse

/-- `werkzeug.utils.secure_filename` on a POSIX system, for ASCII input:
replace the path separator by a space, split on whitespace and re-join the
pieces with underscores, drop every character outside `[A-Za-z0-9_.-]`,
then strip leading/trailing dots and underscores. -/
def secure_filename (s : String) : String :=
  let replaced := s.data.map (fun c => if c = '/' then ' ' else c)
  let joined := List.intercalate ['_'] (pySplitWsAux replaced [])
  String.mk (stripDotUnderscore (joined.filter keepChar))

/-- Whitespace Python's `int()` strips around a numeric literal (the ASCII
and Latin-1 representatives of the Unicode whitespace it accepts). -/
def pyIntSpace (c : Char) : Bool :=
  c = ' ' || c = '\t' || c = '\n' || c = '\x0d' || c = '\x0b' || c = '\x0c' ||
    c = '\x1c' || c = '\x1d' || c = '\x1e' || c = '\x1f' || c = '\x85' || c = '\xa0'

def isAsciiDigit (c : Char) : Bool :=
  '0' ≤ c && c ≤ '9'

/-- Continuation of Python's integer-literal digit grammar after a leading
digit: further digits, with single underscores allowed only between two
digits (`digit (["_"] digit)*`). -/
def pyDigitsTail : List Char → Bool
  | [] => true
  | c :: rest =>
    if c = '_' then
      match rest with
      | [] => false
      | d :: rest' => isAsciiDigit d && pyDigitsTail rest'
    else isAsciiDigit c && pyDigitsTail rest

/-- Python's integer-literal digit grammar: a nonempty digit string with
single underscores allowed between digits. -/
def pyDigitsOk : List Char → Bool
  | [] => false
  | c :: rest => isAsciiDigit c && pyDigitsTail rest

/-- Python's `int(s)` for ASCII input (non-ASCII digits are out of scope
of this embedding): optional surrounding whitespace, an optional `+` or
`-` sign, then a nonempty digit string with single underscores allowed
between digits; `none` models `int` raising `ValueError`. -/
def pyInt (s : String) : Option Int :=
  let core := (s.data.dropWhile pyIntSpace).reverse.dropWhile pyIntSpace |>.reverse
  let sign : Int := if core.head? = some '-' then -1 else 1
  let digits :=
    if core.head? = some '+' || core.head? = some '-' then core.tail else core
  if pyDigitsOk digits then
    some (sign * Int.ofNat (digitsVal (digits.filter (fun c => c ≠ '_'))))
  else none

/-! ## Data model

`Card` and `Image` mirror the two SQLAlchemy models; `DB` holds the
committed rows plus the autoincrement counters of the two tables;
`AppState` adds the upload directory (File Store). -/

structure Card where
  id : Int
  name : String
  parentId : Option Int
deriving Repr, DecidableEq

structure Image where
  id : Int
  filename : String
  cardId : Int
deriving Repr, DecidableEq

structure DB where
  cards : List Card
  images : List Image
  nextCardId : Int
  nextImageId : Int
deriving Repr, DecidableEq

structure AppState where
  db : DB
  fileStore : List String
deriving Repr, DecidableEq

inductive Flash where
  | success : String → Flash
  | error : String → Flash
deriving Repr, DecidableEq

inductive Outcome where
  | redirect : String → Outcome
  | notFound : Outcome
  | serverError : String → Outcome
deriving Repr, DecidableEq

/-- The response of one mutating route: resulting application state, the
flashed messages of this request (in order), and how the request ended. -/
structure Result where
  state : AppState
  flashes : List Flash
  outcome : Outcome
deriving Repr, DecidableEq

/-- One entry of `request.files.getlist(...)`: the original (possibly
path-bearing) filename, plus fault-injection fields modelling
`file.save(...)` raising an exception with a given message. -/
structure UploadFile where
  filename : String
  saveRaises : Bool := false
  errMsg : String := "error"
deriving Repr, DecidableEq, Inhabited

/-- Every admin-only route answers this when
`session.get('gallery_access') != 'admin'`. -/
def denied (s : AppState) : Result :=
  ⟨s, [Flash.error "You do not have permission to do that."], Outcome.redirect "gallery"⟩

/-! ## Helpers from app.py -/

def ALLOWED_EXTENSIONS : List (List Char) :=
  ["png".data, "jpg".data, "jpeg".data, "gif".data, "webp".data]

/-- `allowed_file`: the filename contains a dot and the (lower-cased) text
after its last dot is an allowed extension. -/
def allowed_file (filename : String) : Bool :=
  filename.data.contains '.' &&
    ALLOWED_EXTENSIONS.contains
      ((filename.data.reverse.takeWhile (fun c => c ≠ '.')).reverse.map Char.toLower)

/-- The `k`-th alternative filename tried by `save_file`
(`f"{name}_{counter}{ext}"`). -/
def candName (stem ext : String) (k : Nat) : String :=
  stem ++ "_" ++ natStr k ++ ext

/-- The `while os.path.exists(filepath)` loop of `save_file`, fuelled; with
fuel `store.length + 1` the fuel can never run out before a free name is
found (`save_file_not_mem`). -/
def saveLoop (store : List String) (stem ext : String) : Nat → Nat → String → String
  | 0, _, cur => cur
  | fuel + 1, counter, cur =>
    if cur ∈ store then saveLoop store stem ext fuel (counter + 1) (candName stem ext counter)
    else cur

/-- `save_file`: sanitise the name, bump a numeric suffix until the name is
free, write the file.  Returns the chosen filename and the new store. -/
def save_file (store : List String) (origName : String) : String × List String :=
  let fn := secure_filename origName
  let se := splitext fn
  let result := saveLoop store se.1 se.2 (store.length + 1) 1 fn
  (result, store ++ [result])

def findCard (cards : List Card) (cid : Int) : Option Card :=
  cards.find? (fun c => c.id == cid)

/-! ## Routes -/

/-- `add_card` (POST /gallery/add_card). -/
def add_card (session : Option String) (s : AppState) (card_name parent_id : Option String) :
    Result :=
  if session ≠ some "admin" then denied s
  else
    let cardName := card_name.getD ""
    if cardName ≠ "" then
      let pidStr := parent_id.getD ""
      if pidStr ≠ "" && pidStr ≠ "None" then
        match pyInt pidStr with
        | none => ⟨s, [], Outcome.serverError "ValueError"⟩
        | some n =>
          ⟨⟨⟨s.db.cards ++ [⟨s.db.nextCardId, cardName, some n⟩], s.db.images,
              s.db.nextCardId + 1, s.db.nextImageId⟩, s.fileStore⟩,
            [Flash.success ("Card \"" ++ cardName ++ "\" created.")], Outcome.redirect "gallery"⟩
      else
        ⟨⟨⟨s.db.cards ++ [⟨s.db.nextCardId, cardName, none⟩], s.db.images,
            s.db.nextCardId + 1, s.db.nextImageId⟩, s.fileStore⟩,
          [Flash.success ("Card \"" ++ cardName ++ "\" created.")], Outcome.redirect "gallery"⟩
    else ⟨s, [], Outcome.redirect "gallery"⟩

/-- `edit_card` (POST /gallery/edit_card/&lt;card_id&gt;). -/
def edit_card (session : Option String) (s : AppState) (card_id : Int)
    (card_name : Option String) : Result :=
  if session ≠ some "admin" then denied s
  else
    match findCard s.db.cards card_id with
    | none => ⟨s, [], Outcome.notFound⟩
    | some _ =>
      let newName := card_name.getD ""
      if newName ≠ "" then
        ⟨⟨⟨s.db.cards.map (fun c => if c.id == card_id then { c with name := newName } else c),
            s.db.images, s.db.nextCardId, s.db.nextImageId⟩, s.fileStore⟩,
          [Flash.success ("Card renamed to \"" ++ newName ++ "\".")], Outcome.redirect "gallery"⟩
      else ⟨s, [Flash.error "New name cannot be empty."], Outcome.redirect "gallery"⟩

/-- Accumulator of the per-file loops of `upload_image` / `upload_folder`:
current File Store, image rows added to the uncommitted session, next
autoincrement id, count of successfully handled files, warning flashes. -/
structure UploadAcc where
  fileStore : List String
  pending : List Image
  nextImageId : Int
  count : Nat
  warns : List Flash
deriving Repr, DecidableEq

/-- The per-file loop of `upload_image`: silently skip files without a
name, warn per file with a disallowed extension, save the rest; a raising
`file.save` aborts the loop with the File Store as written so far. -/
def processFiles (cardId : Int) : List UploadFile → UploadAcc →
    Except (String × List String) UploadAcc
  | [], acc => Except.ok acc
  | f :: fs, acc =>
    if f.filename ≠ "" && allowed_file f.filename then
      if f.saveRaises then Except.error (f.errMsg, acc.fileStore)
      else
        processFiles cardId fs
          ⟨(save_file acc.fileStore f.filename).2,
            acc.pending ++ [⟨acc.nextImageId, (save_file acc.fileStore f.filename).1, cardId⟩],
            acc.nextImageId + 1, acc.count + 1, acc.warns⟩
    else
      if f.filename ≠ "" then
        processFiles cardId fs
          { acc with
            warns := acc.warns ++
              [Flash.error ("File \"" ++ f.filename ++ "\" is not an allowed type.")] }
      else processFiles cardId fs acc

/-- `upload_image` (POST /gallery/upload_image). -/
def upload_image (session : Option String) (s : AppState) (card_id : Option Int)
    (files : List UploadFile) : Result :=
  if session ≠ some "admin" then denied s
  else
    match card_id.bind (findCard s.db.cards) with
    | none => ⟨s, [Flash.error "Card not found."], Outcome.redirect "gallery"⟩
    | some card =>
      match processFiles card.id files ⟨s.fileStore, [], s.db.nextImageId, 0, []⟩ with
      | Except.error e => ⟨⟨s.db, e.2⟩, [], Outcome.serverError e.1⟩
      | Except.ok acc =>
        if acc.count > 0 then
          ⟨⟨⟨s.db.cards, s.db.images ++ acc.pending, s.db.nextCardId, acc.nextImageId⟩,
              acc.fileStore⟩,
            acc.warns ++ [Flash.success (natStr acc.count ++ " image(s) uploaded successfully.")],
            Outcome.redirect "gallery"⟩
        else
          ⟨⟨s.db, acc.fileStore⟩,
            acc.warns ++ [Flash.error "No valid files were selected or uploaded."],
            Outcome.redirect "gallery"⟩

/-- The per-file loop of `upload_folder`: like `processFiles` but silently
skips rejected files (no per-file warning). -/
def folderFiles (cardId : Int) : List UploadFile → UploadAcc →
    Except (String × List String) UploadAcc
  | [], acc => Except.ok acc
  | f :: fs, acc =>
    if f.filename ≠ "" && allowed_file f.filename then
      if f.saveRaises then Except.error (f.errMsg, acc.fileStore)
      else
        folderFiles cardId fs
          ⟨(save_file acc.fileStore f.filename).2,
            acc.pending ++ [⟨acc.nextImageId, (save_file acc.fileStore f.filename).1, cardId⟩],
            acc.nextImageId + 1, acc.count + 1, acc.warns⟩
    else folderFiles cardId fs acc

/-- Card-name derivation of `upload_folder`: the part of the first file's
path before the first `/`, or `"Uploaded Files"` when there is no `/`. -/
def folderCardName (files : List UploadFile) : String :=
  let parts := pySplit1 (files.headD default).filename '/'
  if parts.length > 1 then parts.headD "" else "Uploaded Files"

/-- `upload_folder` (POST /gallery/upload_folder).  On an exception the
session is rolled back: the pending card and image rows are discarded but
files already written stay in the File Store. -/
def upload_folder (session : Option String) (s : AppState) (files : List UploadFile) : Result :=
  if session ≠ some "admin" then denied s
  else if files.isEmpty then
    ⟨s, [Flash.error "No folder or files selected."], Outcome.redirect "gallery"⟩
  else
    let cardName := folderCardName files
    let newCard : Card := ⟨s.db.nextCardId, cardName, none⟩
    match folderFiles newCard.id files ⟨s.fileStore, [], s.db.nextImageId, 0, []⟩ with
    | Except.error e =>
      ⟨⟨s.db, e.2⟩, [Flash.error ("An error occurred during folder upload: " ++ e.1)],
        Outcome.redirect "gallery"⟩
    | Except.ok acc =>
      ⟨⟨⟨s.db.cards ++ [newCard], s.db.images ++ acc.pending, s.db.nextCardId + 1,
          acc.nextImageId⟩, acc.fileStore⟩,
        [Flash.success ("Folder \"" ++ cardName ++ "\" created with " ++ natStr acc.count ++
          " images.")],
        Outcome.redirect "gallery"⟩

/-- Ids of cards whose parent is already marked for deletion but which are
not yet marked themselves. -/
def childIds (cards : List Card) (ids : List Int) : List Int :=
  (cards.filter (fun c =>
    c.parentId.any (fun p => ids.contains p) && !(ids.contains c.id))).map Card.id

/-- Fuelled closure of `childIds`, modelling SQLAlchemy's recursive
`cascade="all, delete-orphan"` on `Card.children`. -/
def descAux (cards : List Card) : Nat → List Int → List Int
  | 0, ids => ids
  | fuel + 1, ids =>
    if (childIds cards ids).isEmpty then ids
    else descAux cards fuel (ids ++ childIds cards ids)

/-- The set of card ids removed when card `cid` is deleted: `cid` itself
plus all ids reachable downward through `parentId`. -/
def deletedIds (cards : List Card) (cid : Int) : List Int :=
  descAux cards cards.length [cid]

/-- `delete_card` (POST /gallery/delete_card/&lt;card_id&gt;): best-effort
removal of the files of the card's *direct* images only, then cascading
removal of the card row, its descendant card rows and their image rows. -/
def delete_card (session : Option String) (s : AppState) (card_id : Int) : Result :=
  if session ≠ some "admin" then denied s
  else
    match findCard s.db.cards card_id with
    | none => ⟨s, [], Outcome.notFound⟩
    | some card =>
      let directImages := s.db.images.filter (fun i => i.cardId == card.id)
      let fs' := directImages.foldl (fun fs i => fs.erase i.filename) s.fileStore
      let deleted := deletedIds s.db.cards card.id
      ⟨⟨⟨s.db.cards.filter (fun c => !(deleted.contains c.id)),
          s.db.images.filter (fun i => !(deleted.contains i.cardId)),
          s.db.nextCardId, s.db.nextImageId⟩, fs'⟩,
        [Flash.success ("Card \"" ++ card.name ++ "\" and all its contents deleted.")],
        Outcome.redirect "gallery"⟩

/-- Proper descendant relation of the card tree: `Desc cards root x` holds
when the card with id `x` lies strictly below the card with id `root`,
following `parentId` edges. -/
inductive Desc (cards : List Card) (root : Int) : Int → Prop
  | direct {c : Card} : c ∈ cards → c.parentId = some root → Desc cards root c.id
  | step {c : Card} {y : Int} : Desc cards root y → c ∈ cards → c.parentId = some y →
      Desc cards root c.id

/-- The `i`-th candidate filename examined by `saveLoop` when the current
candidate is `cur` and the counter is `counter`. -/
def candFrom (stem ext cur : String) (counter : Nat) : Nat → String
  | 0 => cur
  | i + 1 => candName stem ext (counter + i)

/-- A file the upload loops accept: nonempty filename, allowed extension. -/
def validUpload (f : UploadFile) : Bool :=
  f.filename ≠ "" && allowed_file f.filename

/-- A file `upload_image` rejects with a per-file warning: it has a
filename, but a disallowed extension. -/
def rejectedUpload (f : UploadFile) : Bool :=
  f.filename ≠ "" && !allowed_file f.filename

/-- The per-file warnings `upload_image` flashes for a batch. -/
def warnsOf (files : List UploadFile) : List Flash :=
  (files.filter rejectedUpload).map
    (fun f => Flash.error ("File \"" ++ f.filename ++ "\" is not an allowed type."))

/-- `eraseAll fs names` erases each name of `names` (one occurrence each)
from `fs`, the shape `delete_card`'s file-removal loop has. -/
def eraseAll (fs : List String) (names : List String) : List String :=
  names.foldl (fun a n => a.erase n) fs

/-- `delete_image` (POST /gallery/delete_image/&lt;image_id&gt;). -/
def delete_image (session : Option String) (s : AppState) (image_id : Int) : Result :=
  if session ≠ some "admin" then denied s
  else
    match s.db.images.find? (fun i => i.id == image_id) with
    | none => ⟨s, [], Outcome.notFound⟩
    | some img =>
      ⟨⟨⟨s.db.cards, s.db.images.erase img, s.db.nextCardId, s.db.nextImageId⟩,
          s.fileStore.erase img.filename⟩,
        [Flash.success "Image deleted."], Outcome.redirect "gallery"⟩

/-! ## Lemmas: decimal rendering -/

theorem natDigitsAux_congr : ∀ (f1 f2 n : Nat), n < f1 → n < f2 →
    natDigitsAux f1 n = natDigitsAux f2 n := by
  intro f1
  induction f1 with
  | zero => intro f2 n h1 _; omega
  | succ f ih =>
    intro f2 n h1 h2
    cases f2 with
    | zero => omega
    | succ g =>
      simp only [natDigitsAux]
      by_cases h : n < 10
      · simp [h]
      · have hd : n / 10 < n := Nat.div_lt_self (by omega) (by omega)
        simp only [if_neg h]
        rw [ih g (n / 10) (by omega) (by omega)]

theorem natDigits_eq (n : Nat) : natDigits n =
    if n < 10 then [Char.ofNat (48 + n)]
    else natDigits (n / 10) ++ [Char.ofNat (48 + n % 10)] := by
  show natDigitsAux (n + 1) n = _
  rw [natDigitsAux]
  by_cases h : n < 10
  · simp [h]
  · have hd : n / 10 < n := Nat.div_lt_self (by omega) (by omega)
    simp only [if_neg h]
    rw [natDigitsAux_congr n (n / 10 + 1) (n / 10) (by omega) (by omega)]
    rfl

theorem toNat_digitChar {d : Nat} (h : d < 10) : (Char.ofNat (48 + d)).toNat = 48 + d := by
  interval_cases d <;> decide

theorem digitsVal_append (cs : List Char) (c : Char) :
    digitsVal (cs ++ [c]) = digitsVal cs * 10 + (c.toNat - 48) := by
  unfold digitsVal
  rw [List.foldl_append]
  rfl

theorem digitsVal_natDigits (n : Nat) : digitsVal (natDigits n) = n := by
  induction n using Nat.strong_induction_on with
  | _ n ih =>
    rw [natDigits_eq]
    by_cases h : n < 10
    · simp only [if_pos h]
      show 0 * 10 + ((Char.ofNat (48 + n)).toNat - 48) = n
      rw [toNat_digitChar h]
      omega
    · simp only [if_neg h]
      rw [digitsVal_append, ih (n / 10) (Nat.div_lt_self (by omega) (by omega)),
        toNat_digitChar (Nat.mod_lt n (by omega))]
      omega

theorem natDigits_ne_nil (n : Nat) : natDigits n ≠ [] := by
  rw [natDigits_eq]
  by_cases h : n < 10 <;> simp [h]

theorem natStr_injective {a b : Nat} (h : natStr a = natStr b) : a = b := by
  have hd : natDigits a = natDigits b := congrArg String.data h
  calc a = digitsVal (natDigits a) := (digitsVal_natDigits a).symm
    _ = digitsVal (natDigits b) := by rw [hd]
    _ = b := digitsVal_natDigits b

/-! ## Lemmas: splitext and the unique-filename loop -/

theorem strMk_data (s : String) : String.mk s.data = s := rfl

theorem splitext_append (s : String) : (splitext s).1 ++ (splitext s).2 = s := by
  unfold splitext
  cases h : lastIdxOf '.' s.data with
  | none => exact String.append_empty s
  | some i =>
    by_cases hany : (s.data.take i).any (fun c => c ≠ '.')
    · simp only [if_pos hany]
      show String.mk (s.data.take i ++ s.data.drop i) = s
      rw [List.take_append_drop]
    · simp only [if_neg hany]
      exact String.append_empty s

theorem candName_inj {stem ext : String} {j k : Nat}
    (h : candName stem ext j = candName stem ext k) : j = k := by
  have hd := congrArg String.data h
  simp only [candName, String.data_append] at hd
  have h1 : (stem.data ++ ['_']) ++ (natStr j).data = (stem.data ++ ['_']) ++ (natStr k).data :=
    List.append_cancel_right hd
  have h3 : (natStr j).data = (natStr k).data := List.append_cancel_left h1
  exact natStr_injective (congrArg String.mk h3)

theorem base_ne_candName (stem ext : String) (k : Nat) :
    stem ++ ext ≠ candName stem ext k := by
  intro h
  have hd := congrArg (fun t => t.data.length) h
  have hne : 0 < (natStr k).data.length :=
    List.length_pos.mpr (natDigits_ne_nil k)
  simp only [candName, String.data_append, List.length_append] at hd
  simp only [show ("_" : String).data.length = 1 from rfl] at hd
  omega

theorem saveLoop_stable (store : List String) (stem ext : String) (fuel counter : Nat)
    (cur : String) (h : cur ∉ store) :
    saveLoop store stem ext (fuel + 1) counter cur = cur := by
  simp [saveLoop, h]

theorem saveLoop_shape (store : List String) (stem ext : String) :
    ∀ fuel counter cur, saveLoop store stem ext fuel counter cur = cur ∨
      ∃ k, counter ≤ k ∧ saveLoop store stem ext fuel counter cur = candName stem ext k := by
  intro fuel
  induction fuel with
  | zero => intro counter cur; left; rfl
  | succ f ih =>
    intro counter cur
    simp only [saveLoop]
    by_cases h : cur ∈ store
    · simp only [if_pos h]
      rcases ih (counter + 1) (candName stem ext counter) with h1 | ⟨k, hk, h2⟩
      · right; exact ⟨counter, Nat.le_refl _, h1⟩
      · right; exact ⟨k, by omega, h2⟩
    · simp [h]

theorem saveLoop_not_mem (store : List String) (stem ext : String) :
    ∀ fuel counter cur, (∃ i < fuel, candFrom stem ext cur counter i ∉ store) →
      saveLoop store stem ext fuel counter cur ∉ store := by
  intro fuel
  induction fuel with
  | zero =>
    rintro counter cur ⟨i, hi, _⟩
    omega
  | succ f ih =>
    rintro counter cur ⟨i, hi, hfree⟩
    simp only [saveLoop]
    by_cases h : cur ∈ store
    · simp only [if_pos h]
      apply ih
      match i, hi, hfree with
      | 0, _, hfree => exact absurd h hfree
      | i + 1, hi, hfree =>
        refine ⟨i, by omega, ?_⟩
        cases i with
        | zero => simpa [candFrom] using hfree
        | succ j =>
          simp only [candFrom] at hfree ⊢
          have harith : counter + 1 + j = counter + (j + 1) := by omega
          rw [harith]
          exact hfree
    · simp [h]

theorem candFrom_inj (stem ext : String) {i j : Nat}
    (h : candFrom stem ext (stem ++ ext) 1 i = candFrom stem ext (stem ++ ext) 1 j) :
    i = j := by
  match i, j, h with
  | 0, 0, _ => rfl
  | 0, j + 1, h => exact absurd h (base_ne_candName stem ext (1 + j))
  | i + 1, 0, h => exact absurd h.symm (base_ne_candName stem ext (1 + i))
  | i + 1, j + 1, h =>
    have := @candName_inj stem ext _ _ h
    omega

theorem exists_free_cand (store : List String) (stem ext : String) :
    ∃ i < store.length + 1, candFrom stem ext (stem ++ ext) 1 i ∉ store := by
  by_contra hall
  push_neg at hall
  have hnodup : ((List.range (store.length + 1)).map
      (candFrom stem ext (stem ++ ext) 1)).Nodup := by
    refine List.Nodup.map_on ?_ (List.nodup_range _)
    intro x _ y _ hxy
    exact candFrom_inj stem ext hxy
  have hsubset : ((List.range (store.length + 1)).map
      (candFrom stem ext (stem ++ ext) 1)).toFinset ⊆ store.toFinset := by
    intro x hx
    rw [List.mem_toFinset] at hx
    rcases List.mem_map.mp hx with ⟨i, hi, rfl⟩
    rw [List.mem_toFinset]
    exact hall i (List.mem_range.mp hi)
  have hcard := Finset.card_le_card hsubset
  rw [List.toFinset_card_of_nodup hnodup] at hcard
  have hle := List.toFinset_card_le store
  simp only [List.length_map, List.length_range] at hcard
  omega

theorem save_file_store (store : List String) (orig : String) :
    (save_file store orig).2 = store ++ [(save_file store orig).1] := rfl

theorem save_file_not_mem (store : List String) (orig : String) :
    (save_file store orig).1 ∉ store := by
  show saveLoop store (splitext (secure_filename orig)).1 (splitext (secure_filename orig)).2
    (store.length + 1) 1 (secure_filename orig) ∉ store
  apply saveLoop_not_mem
  have hfe := splitext_append (secure_filename orig)
  have := exists_free_cand store (splitext (secure_filename orig)).1
    (splitext (secure_filename orig)).2
  rw [hfe] at this
  exact this

/-! ## Lemmas: cascade deletion -/

theorem contains_iff_mem {l : List Int} {x : Int} : l.contains x = true ↔ x ∈ l := by
  simp [List.contains_eq_any_beq]

theorem contains_eq_false_iff {l : List Int} {x : Int} : l.contains x = false ↔ x ∉ l := by
  rw [Bool.eq_false_iff, Ne, contains_iff_mem]

theorem mem_childIds {cards : List Card} {ids : List Int} {x : Int} :
    x ∈ childIds cards ids ↔
      ∃ c ∈ cards, c.id = x ∧ (∃ p, c.parentId = some p ∧ p ∈ ids) ∧ x ∉ ids := by
  unfold childIds
  rw [List.mem_map]
  constructor
  · rintro ⟨c, hcf, rfl⟩
    rw [List.mem_filter, Bool.and_eq_true] at hcf
    have hc := hcf.1
    have hpar := hcf.2.1
    have hnot := hcf.2.2
    cases hp : c.parentId with
    | none => rw [hp, Option.any_none] at hpar; exact absurd hpar (by simp)
    | some p =>
      rw [hp, Option.any_some] at hpar
      refine ⟨c, hc, rfl, ⟨p, hp, contains_iff_mem.mp hpar⟩, ?_⟩
      rw [Bool.not_eq_true'] at hnot
      exact contains_eq_false_iff.mp hnot
  · rintro ⟨c, hc, rfl, ⟨p, hp, hpmem⟩, hnot⟩
    refine ⟨c, ?_, rfl⟩
    rw [List.mem_filter, Bool.and_eq_true]
    refine ⟨hc, ?_, ?_⟩
    · rw [hp, Option.any_some]
      exact contains_iff_mem.mpr hpmem
    · rw [Bool.not_eq_true']
      exact contains_eq_false_iff.mpr hnot

theorem descAux_sub (cards : List Card) :
    ∀ fuel ids x, x ∈ ids → x ∈ descAux cards fuel ids := by
  intro fuel
  induction fuel with
  | zero => intro ids x hx; exact hx
  | succ f ih =>
    intro ids x hx
    rw [descAux]
    by_cases h : (childIds cards ids).isEmpty
    · rw [if_pos h]; exact hx
    · rw [if_neg h]
      exact ih _ x (List.mem_append_left _ hx)

theorem childIds_eq_nil (cards : List Card) (ids : List Int)
    (h : ∀ c ∈ cards, c.id ∈ ids) : childIds cards ids = [] := by
  by_contra hne
  obtain ⟨x, hx⟩ := List.exists_mem_of_ne_nil (childIds cards ids) hne
  obtain ⟨c, hc, rfl, _, hnot⟩ := mem_childIds.mp hx
  exact hnot (h c hc)

theorem descAux_closed (cards : List Card) :
    ∀ fuel ids, ((cards.map Card.id).toFinset \ ids.toFinset).card ≤ fuel →
      childIds cards (descAux cards fuel ids) = [] := by
  intro fuel
  induction fuel with
  | zero =>
    intro ids h
    show childIds cards (descAux cards 0 ids) = []
    rw [descAux]
    apply childIds_eq_nil
    intro c hc
    by_contra hx
    have hmem : c.id ∈ (cards.map Card.id).toFinset \ ids.toFinset := by
      rw [Finset.mem_sdiff, List.mem_toFinset, List.mem_toFinset]
      exact ⟨List.mem_map_of_mem _ hc, hx⟩
    have := Finset.card_pos.mpr ⟨_, hmem⟩
    omega
  | succ f ih =>
    intro ids h
    rw [descAux]
    by_cases hempty : (childIds cards ids).isEmpty
    · rw [if_pos hempty]
      exact List.isEmpty_iff.mp hempty
    · rw [if_neg hempty]
      apply ih
      have hne : childIds cards ids ≠ [] := by
        intro hcon; rw [hcon] at hempty; exact hempty rfl
      obtain ⟨x, hx⟩ := List.exists_mem_of_ne_nil _ hne
      obtain ⟨c, hc, rfl, _, hnotin⟩ := mem_childIds.mp hx
      have hxA : c.id ∈ (cards.map Card.id).toFinset \ ids.toFinset := by
        rw [Finset.mem_sdiff, List.mem_toFinset, List.mem_toFinset]
        exact ⟨List.mem_map_of_mem _ hc, hnotin⟩
      have hsubE : (cards.map Card.id).toFinset \ (ids ++ childIds cards ids).toFinset ⊆
          ((cards.map Card.id).toFinset \ ids.toFinset).erase c.id := by
        intro y hy
        simp only [Finset.mem_sdiff, List.toFinset_append, Finset.mem_union,
          List.mem_toFinset] at hy
        push_neg at hy
        have hyA := hy.1
        have hyids := hy.2.1
        have hynew := hy.2.2
        simp only [Finset.mem_erase, Finset.mem_sdiff, List.mem_toFinset]
        exact ⟨fun hcon => hynew (hcon ▸ hx), hyA, hyids⟩
      have hcard := Finset.card_le_card hsubE
      rw [Finset.card_erase_of_mem hxA] at hcard
      have hpos := Finset.card_pos.mpr ⟨_, hxA⟩
      omega

theorem findCard_eq {cards : List Card} {cid : Int} {card : Card}
    (h : findCard cards cid = some card) : card ∈ cards ∧ card.id = cid := by
  refine ⟨List.mem_of_find?_eq_some h, ?_⟩
  have := List.find?_some h
  simpa using this

theorem mem_deletedIds_self (cards : List Card) (cid : Int) : cid ∈ deletedIds cards cid :=
  descAux_sub cards cards.length [cid] cid (List.mem_singleton.mpr rfl)

theorem deletedIds_closed (cards : List Card) (cid : Int) :
    childIds cards (deletedIds cards cid) = [] := by
  apply descAux_closed
  calc ((cards.map Card.id).toFinset \ ([cid] : List Int).toFinset).card
      ≤ (cards.map Card.id).toFinset.card :=
        Finset.card_le_card (Finset.sdiff_subset)
    _ ≤ (cards.map Card.id).length := List.toFinset_card_le _
    _ = cards.length := List.length_map _ _

theorem desc_mem_deletedIds {cards : List Card} {cid x : Int}
    (h : Desc cards cid x) : x ∈ deletedIds cards cid := by
  have hstep : ∀ c ∈ cards, ∀ p, c.parentId = some p → p ∈ deletedIds cards cid →
      c.id ∈ deletedIds cards cid := by
    intro c hc p hp hpmem
    by_contra hno
    have hmem : c.id ∈ childIds cards (deletedIds cards cid) :=
      mem_childIds.mpr ⟨c, hc, rfl, ⟨p, hp, hpmem⟩, hno⟩
    rw [deletedIds_closed] at hmem
    exact absurd hmem (List.not_mem_nil _)
  induction h with
  | direct hc hp => exact hstep _ hc _ hp (mem_deletedIds_self cards cid)
  | step _ hc hp ih => exact hstep _ hc _ hp ih

/-! ## Lemmas: removing files from the store -/

theorem eraseAll_sub : ∀ (names fs : List String) (x : String),
    x ∈ eraseAll fs names → x ∈ fs := by
  intro names
  induction names with
  | nil => intro fs x hx; exact hx
  | cons n ns ih =>
    intro fs x hx
    exact List.mem_of_mem_erase (ih (fs.erase n) x hx)

theorem not_mem_eraseAll : ∀ (names fs : List String) (x : String),
    fs.Nodup → x ∈ names → x ∉ eraseAll fs names := by
  intro names
  induction names with
  | nil => intro fs x _ hx; exact absurd hx (List.not_mem_nil _)
  | cons n ns ih =>
    intro fs x hnd hx
    rcases List.mem_cons.mp hx with rfl | hx
    · intro hmem
      exact hnd.not_mem_erase (eraseAll_sub ns (fs.erase x) x hmem)
    · exact ih (fs.erase n) x (hnd.erase n) hx

theorem mem_eraseAll_of_not_mem : ∀ (names fs : List String) (x : String),
    x ∉ names → x ∈ fs → x ∈ eraseAll fs names := by
  intro names
  induction names with
  | nil => intro fs x _ hx; exact hx
  | cons n ns ih =>
    intro fs x hnin hx
    have hxn : x ≠ n := fun hcon => hnin (hcon ▸ List.mem_cons_self n ns)
    exact ih (fs.erase n) x (fun hcon => hnin (List.mem_cons_of_mem n hcon))
      ((List.mem_erase_of_ne hxn).mpr hx)

/-! ## Lemmas: the upload loops -/

theorem rejected_of_valid {f : UploadFile} (hv : validUpload f = true) :
    rejectedUpload f = false := by
  unfold validUpload at hv
  rw [Bool.and_eq_true] at hv
  unfold rejectedUpload
  simp [hv.1, hv.2]

theorem allowed_false_of_valid_false {f : UploadFile} (hv : validUpload f = false)
    (hname : f.filename ≠ "") : allowed_file f.filename = false := by
  cases hall : allowed_file f.filename with
  | false => rfl
  | true =>
    exfalso
    unfold validUpload at hv
    rw [hall] at hv
    simp [hname] at hv

theorem rejected_of_parts {f : UploadFile} (hname : f.filename ≠ "")
    (hall : allowed_file f.filename = false) : rejectedUpload f = true := by
  unfold rejectedUpload
  simp [hname, hall]

theorem processFiles_cons_valid (cid : Int) (f : UploadFile) (fs : List UploadFile)
    (acc : UploadAcc) (hv : validUpload f = true) (hr : f.saveRaises = false) :
    processFiles cid (f :: fs) acc = processFiles cid fs
      ⟨(save_file acc.fileStore f.filename).2,
        acc.pending ++ [⟨acc.nextImageId, (save_file acc.fileStore f.filename).1, cid⟩],
        acc.nextImageId + 1, acc.count + 1, acc.warns⟩ := by
  unfold validUpload at hv
  simp only [processFiles, hv, hr, if_true, Bool.false_eq_true, if_false]

theorem processFiles_cons_raise (cid : Int) (f : UploadFile) (fs : List UploadFile)
    (acc : UploadAcc) (hv : validUpload f = true) (hr : f.saveRaises = true) :
    processFiles cid (f :: fs) acc = Except.error (f.errMsg, acc.fileStore) := by
  unfold validUpload at hv
  simp only [processFiles, hv, hr, if_true]

theorem processFiles_cons_empty (cid : Int) (f : UploadFile) (fs : List UploadFile)
    (acc : UploadAcc) (hname : f.filename = "") :
    processFiles cid (f :: fs) acc = processFiles cid fs acc := by
  simp only [processFiles, hname]
  simp

theorem processFiles_cons_rejected (cid : Int) (f : UploadFile) (fs : List UploadFile)
    (acc : UploadAcc) (hname : f.filename ≠ "") (hall : allowed_file f.filename = false) :
    processFiles cid (f :: fs) acc = processFiles cid fs
      { acc with
        warns := acc.warns ++
          [Flash.error ("File \"" ++ f.filename ++ "\" is not an allowed type.")] } := by
  simp only [processFiles, hname, hall]
  simp [hname]

theorem folderFiles_cons_valid (cid : Int) (f : UploadFile) (fs : List UploadFile)
    (acc : UploadAcc) (hv : validUpload f = true) (hr : f.saveRaises = false) :
    folderFiles cid (f :: fs) acc = folderFiles cid fs
      ⟨(save_file acc.fileStore f.filename).2,
        acc.pending ++ [⟨acc.nextImageId, (save_file acc.fileStore f.filename).1, cid⟩],
        acc.nextImageId + 1, acc.count + 1, acc.warns⟩ := by
  unfold validUpload at hv
  simp only [folderFiles, hv, hr, if_true, Bool.false_eq_true, if_false]

theorem folderFiles_cons_raise (cid : Int) (f : UploadFile) (fs : List UploadFile)
    (acc : UploadAcc) (hv : validUpload f = true) (hr : f.saveRaises = true) :
    folderFiles cid (f :: fs) acc = Except.error (f.errMsg, acc.fileStore) := by
  unfold validUpload at hv
  simp only [folderFiles, hv, hr, if_true]

theorem folderFiles_cons_skip (cid : Int) (f : UploadFile) (fs : List UploadFile)
    (acc : UploadAcc) (hv : validUpload f = false) :
    folderFiles cid (f :: fs) acc = folderFiles cid fs acc := by
  unfold validUpload at hv
  simp only [folderFiles, hv, Bool.false_eq_true, if_false]

/-- Full characterisation of `upload_image`'s per-file loop when no save
raises: the batch succeeds, each accepted file adds one image row linked
to `cid` whose stored file is in the final store, each rejected file adds
one warning, and the store grows by exactly the number of accepted files. -/
theorem processFiles_ok (cid : Int) :
    ∀ (files : List UploadFile) (acc : UploadAcc),
      (∀ f ∈ files, validUpload f = true → f.saveRaises = false) →
      ∃ acc' newImgs, processFiles cid files acc = Except.ok acc' ∧
        acc'.pending = acc.pending ++ newImgs ∧
        newImgs.length = (files.filter validUpload).length ∧
        (∀ i ∈ newImgs, i.cardId = cid ∧ i.filename ∈ acc'.fileStore) ∧
        acc'.count = acc.count + (files.filter validUpload).length ∧
        acc'.warns = acc.warns ++ warnsOf files ∧
        acc'.fileStore.length = acc.fileStore.length + (files.filter validUpload).length ∧
        (∀ x ∈ acc.fileStore, x ∈ acc'.fileStore) ∧
        acc'.nextImageId = acc.nextImageId + ((files.filter validUpload).length : Int) := by
  intro files
  induction files with
  | nil =>
    intro acc _
    exact ⟨acc, [], rfl, by simp, by simp [List.filter], by simp, by simp [List.filter],
      by simp [warnsOf, List.filter], by simp [List.filter], fun x hx => hx,
      by simp [List.filter]⟩
  | cons f fs ih =>
    intro acc h
    by_cases hv : validUpload f = true
    · have hr : f.saveRaises = false := h f (List.mem_cons_self f fs) hv
      rw [processFiles_cons_valid cid f fs acc hv hr]
      obtain ⟨acc', newImgs, heq, hpend, hlen, himgs, hcount, hwarns, hfslen, hsub, hnext⟩ :=
        ih _ (fun g hg => h g (List.mem_cons_of_mem f hg))
      have hfilter : (f :: fs).filter validUpload = f :: fs.filter validUpload :=
        List.filter_cons_of_pos hv
      refine ⟨acc', ⟨acc.nextImageId, (save_file acc.fileStore f.filename).1, cid⟩ :: newImgs,
        heq, ?_, ?_, ?_, ?_, ?_, ?_, ?_, ?_⟩
      · rw [hpend]
        simp
      · rw [hfilter]
        simp [hlen]
      · intro i hi
        rcases List.mem_cons.mp hi with rfl | hi
        · refine ⟨rfl, hsub _ ?_⟩
          rw [save_file_store]
          exact List.mem_append_right _ (List.mem_singleton.mpr rfl)
        · exact himgs i hi
      · rw [hcount, hfilter]
        simp
        omega
      · rw [hwarns]
        show acc.warns ++ warnsOf fs = acc.warns ++ warnsOf (f :: fs)
        unfold warnsOf
        rw [List.filter_cons_of_neg (by rw [rejected_of_valid hv]; simp)]
      · rw [hfslen, save_file_store, hfilter]
        simp
        omega
      · intro x hx
        apply hsub
        rw [save_file_store]
        exact List.mem_append_left _ hx
      · rw [hnext, hfilter]
        show acc.nextImageId + 1 + ((List.filter validUpload fs).length : Int) = _
        rw [List.length_cons]
        push_cast
        omega
    · have hvf : validUpload f = false := Bool.not_eq_true _ ▸ eq_false_of_ne_true hv
      have hfilter : (f :: fs).filter validUpload = fs.filter validUpload :=
        List.filter_cons_of_neg (by rw [hvf]; simp)
      by_cases hname : f.filename = ""
      · rw [processFiles_cons_empty cid f fs acc hname]
        obtain ⟨acc', newImgs, heq, hpend, hlen, himgs, hcount, hwarns, hfslen, hsub, hnext⟩ :=
          ih acc (fun g hg => h g (List.mem_cons_of_mem f hg))
        have hwof : warnsOf (f :: fs) = warnsOf fs := by
          unfold warnsOf
          rw [List.filter_cons_of_neg (by unfold rejectedUpload; simp [hname])]
        exact ⟨acc', newImgs, heq, hpend, by rw [hfilter]; exact hlen, himgs,
          by rw [hfilter]; exact hcount, by rw [hwof]; exact hwarns,
          by rw [hfilter]; exact hfslen, hsub, by rw [hfilter]; exact hnext⟩
      · have hall : allowed_file f.filename = false := allowed_false_of_valid_false hvf hname
        rw [processFiles_cons_rejected cid f fs acc hname hall]
        obtain ⟨acc', newImgs, heq, hpend, hlen, himgs, hcount, hwarns, hfslen, hsub, hnext⟩ :=
          ih _ (fun g hg => h g (List.mem_cons_of_mem f hg))
        have hwof : warnsOf (f :: fs) =
            Flash.error ("File \"" ++ f.filename ++ "\" is not an allowed type.") ::
              warnsOf fs := by
          unfold warnsOf
          rw [List.filter_cons_of_pos (rejected_of_parts hname hall)]
          rfl
        refine ⟨acc', newImgs, heq, hpend, by rw [hfilter]; exact hlen, himgs,
          by rw [hfilter]; exact hcount, ?_, by rw [hfilter]; exact hfslen, hsub,
          by rw [hfilter]; exact hnext⟩
        rw [hwarns, hwof]
        simp

/-- The folder-upload loop, when no accepted file raises: like
`processFiles_ok` but with no per-file warnings. -/
theorem folderFiles_ok (cid : Int) :
    ∀ (files : List UploadFile) (acc : UploadAcc),
      (∀ f ∈ files, validUpload f = true → f.saveRaises = false) →
      ∃ acc' newImgs, folderFiles cid files acc = Except.ok acc' ∧
        acc'.pending = acc.pending ++ newImgs ∧
        newImgs.length = (files.filter validUpload).length ∧
        (∀ i ∈ newImgs, i.cardId = cid ∧ i.filename ∈ acc'.fileStore) ∧
        acc'.count = acc.count + (files.filter validUpload).length ∧
        acc'.warns = acc.warns ∧
        acc'.fileStore.length = acc.fileStore.length + (files.filter validUpload).length ∧
        (∀ x ∈ acc.fileStore, x ∈ acc'.fileStore) ∧
        acc'.nextImageId = acc.nextImageId + ((files.filter validUpload).length : Int) := by
  intro files
  induction files with
  | nil =>
    intro acc _
    exact ⟨acc, [], rfl, by simp, by simp [List.filter], by simp, by simp [List.filter],
      rfl, by simp [List.filter], fun x hx => hx, by simp [List.filter]⟩
  | cons f fs ih =>
    intro acc h
    by_cases hv : validUpload f = true
    · have hr : f.saveRaises = false := h f (List.mem_cons_self f fs) hv
      rw [folderFiles_cons_valid cid f fs acc hv hr]
      obtain ⟨acc', newImgs, heq, hpend, hlen, himgs, hcount, hwarns, hfslen, hsub, hnext⟩ :=
        ih _ (fun g hg => h g (List.mem_cons_of_mem f hg))
      have hfilter : (f :: fs).filter validUpload = f :: fs.filter validUpload :=
        List.filter_cons_of_pos hv
      refine ⟨acc', ⟨acc.nextImageId, (save_file acc.fileStore f.filename).1, cid⟩ :: newImgs,
        heq, ?_, ?_, ?_, ?_, hwarns, ?_, ?_, ?_⟩
      · rw [hpend]
        simp
      · rw [hfilter]
        simp [hlen]
      · intro i hi
        rcases List.mem_cons.mp hi with rfl | hi
        · refine ⟨rfl, hsub _ ?_⟩
          rw [save_file_store]
          exact List.mem_append_right _ (List.mem_singleton.mpr rfl)
        · exact himgs i hi
      · rw [hcount, hfilter]
        simp
        omega
      · rw [hfslen, save_file_store, hfilter]
        simp
        omega
      · intro x hx
        apply hsub
        rw [save_file_store]
        exact List.mem_append_left _ hx
      · rw [hnext, hfilter]
        show acc.nextImageId + 1 + ((List.filter validUpload fs).length : Int) = _
        rw [List.length_cons]
        push_cast
        omega
    · have hvf : validUpload f = false := Bool.not_eq_true _ ▸ eq_false_of_ne_true hv
      have hfilter : (f :: fs).filter validUpload = fs.filter validUpload :=
        List.filter_cons_of_neg (by rw [hvf]; simp)
      rw [folderFiles_cons_skip cid f fs acc hvf]
      obtain ⟨acc', newImgs, heq, hpend, hlen, himgs, hcount, hwarns, hfslen, hsub, hnext⟩ :=
        ih acc (fun g hg => h g (List.mem_cons_of_mem f hg))
      exact ⟨acc', newImgs, heq, hpend, by rw [hfilter]; exact hlen, himgs,
        by rw [hfilter]; exact hcount, hwarns, by rw [hfilter]; exact hfslen, hsub,
        by rw [hfilter]; exact hnext⟩

/-- The folder-upload loop when one accepted file's save raises: the loop
aborts with that file's error message; every file already written stays in
the store the error carries, which has grown by one file per accepted file
of the prefix. -/
theorem folderFiles_err (cid : Int) :
    ∀ (pre : List UploadFile) (bad : UploadFile) (rest : List UploadFile) (acc : UploadAcc),
      (∀ f ∈ pre, validUpload f = true → f.saveRaises = false) →
      validUpload bad = true → bad.saveRaises = true →
      ∃ fsr, folderFiles cid (pre ++ bad :: rest) acc = Except.error (bad.errMsg, fsr) ∧
        fsr.length = acc.fileStore.length + (pre.filter validUpload).length ∧
        (∀ x ∈ acc.fileStore, x ∈ fsr) := by
  intro pre
  induction pre with
  | nil =>
    intro bad rest acc _ hbv hbr
    refine ⟨acc.fileStore, ?_, by simp [List.filter], fun x hx => hx⟩
    show folderFiles cid (bad :: rest) acc = _
    rw [folderFiles_cons_raise cid bad rest acc hbv hbr]
  | cons g pre ih =>
    intro bad rest acc h hbv hbr
    by_cases hv : validUpload g = true
    · have hr : g.saveRaises = false := h g (List.mem_cons_self g pre) hv
      obtain ⟨fsr, heq, hlen, hsub⟩ := ih bad rest
        ⟨(save_file acc.fileStore g.filename).2,
          acc.pending ++ [⟨acc.nextImageId, (save_file acc.fileStore g.filename).1, cid⟩],
          acc.nextImageId + 1, acc.count + 1, acc.warns⟩
        (fun f hf => h f (List.mem_cons_of_mem g hf)) hbv hbr
      refine ⟨fsr, ?_, ?_, ?_⟩
      · rw [List.cons_append, folderFiles_cons_valid cid g _ acc hv hr]
        exact heq
      · rw [hlen]
        show ((save_file acc.fileStore g.filename).2).length + _ = _
        rw [save_file_store, List.filter_cons_of_pos hv]
        simp
        omega
      · intro x hx
        apply hsub
        show x ∈ (save_file acc.fileStore g.filename).2
        rw [save_file_store]
        exact List.mem_append_left _ hx
    · have hvf : validUpload g = false := Bool.not_eq_true _ ▸ eq_false_of_ne_true hv
      obtain ⟨fsr, heq, hlen, hsub⟩ := ih bad rest acc
        (fun f hf => h f (List.mem_cons_of_mem g hf)) hbv hbr
      refine ⟨fsr, ?_, ?_, hsub⟩
      · rw [List.cons_append, folderFiles_cons_skip cid g _ acc hvf]
        exact heq
      · rw [hlen, List.filter_cons_of_neg (by rw [hvf]; simp)]

/-! ## Lemmas: folder-name derivation -/

theorem pySplit1Aux_no_sep (sep : Char) :
    ∀ (cs acc : List Char), sep ∉ cs →
      pySplit1Aux sep cs acc = [String.mk (acc.reverse ++ cs)] := by
  intro cs
  induction cs with
  | nil => intro acc _; simp [pySplit1Aux]
  | cons c cs ih =>
    intro acc hns
    have hc : c ≠ sep := fun hcon => hns (hcon ▸ List.mem_cons_self c cs)
    rw [pySplit1Aux, if_neg hc, ih (c :: acc) (fun hmem => hns (List.mem_cons_of_mem c hmem))]
    simp [List.reverse_cons, List.append_assoc]

theorem pySplit1Aux_sep (sep : Char) :
    ∀ (cs acc : List Char), sep ∈ cs →
      pySplit1Aux sep cs acc =
        [String.mk (acc.reverse ++ cs.takeWhile (fun c => c ≠ sep)),
          String.mk ((cs.dropWhile (fun c => c ≠ sep)).tail)] := by
  intro cs
  induction cs with
  | nil => intro acc h; exact absurd h (List.not_mem_nil _)
  | cons c cs ih =>
    intro acc hmem
    by_cases hc : c = sep
    · subst hc
      rw [pySplit1Aux, if_pos rfl]
      simp
    · have hmem' : sep ∈ cs := by
        rcases List.mem_cons.mp hmem with h | h
        · exact absurd h.symm hc
        · exact h
      rw [pySplit1Aux, if_neg hc, ih (c :: acc) hmem']
      simp [hc, List.reverse_cons, List.append_assoc]

theorem folderCardName_sep (f : UploadFile) (rest : List UploadFile)
    (h : '/' ∈ f.filename.data) :
    folderCardName (f :: rest) =
      String.mk (f.filename.data.takeWhile (fun c => c ≠ '/')) := by
  unfold folderCardName pySplit1
  rw [show (f :: rest).headD default = f from rfl,
    pySplit1Aux_sep '/' f.filename.data [] h]
  simp

theorem folderCardName_no_sep (f : UploadFile) (rest : List UploadFile)
    (h : '/' ∉ f.filename.data) :
    folderCardName (f :: rest) = "Uploaded Files" := by
  unfold folderCardName pySplit1
  rw [show (f :: rest).headD default = f from rfl,
    pySplit1Aux_no_sep '/' f.filename.data [] h]
  simp

/-! ## Claim theorems -/

/-- Claim C1: for every admin-only operation (add_card, edit_card,
upload_image, upload_folder, delete_card, delete_image), if the session's
stored gallery access level is not exactly `admin` — including when it is
`public` or absent — the operation performs no mutation of the Storage
Layer or File Store and responds with a redirect plus an error message. -/
theorem claim1_admin_gate (session : Option String) (h : session ≠ some "admin") :
    (∀ s nm pid, add_card session s nm pid =
      ⟨s, [Flash.error "You do not have permission to do that."], Outcome.redirect "gallery"⟩) ∧
    (∀ s cid nm, edit_card session s cid nm =
      ⟨s, [Flash.error "You do not have permission to do that."], Outcome.redirect "gallery"⟩) ∧
    (∀ s cid files, upload_image session s cid files =
      ⟨s, [Flash.error "You do not have permission to do that."], Outcome.redirect "gallery"⟩) ∧
    (∀ s files, upload_folder session s files =
      ⟨s, [Flash.error "You do not have permission to do that."], Outcome.redirect "gallery"⟩) ∧
    (∀ s cid, delete_card session s cid =
      ⟨s, [Flash.error "You do not have permission to do that."], Outcome.redirect "gallery"⟩) ∧
    (∀ s iid, delete_image session s iid =
      ⟨s, [Flash.error "You do not have permission to do that."], Outcome.redirect "gallery"⟩) := by
  refine ⟨?_, ?_, ?_, ?_, ?_, ?_⟩ <;> intros <;>
    simp [add_card, edit_card, upload_image, upload_folder, delete_card, delete_image,
      denied, h]

/-- Witness for C1 at a concrete non-admin (public) session and state. -/
theorem claim1_admin_gate_witness :
    add_card (some "public") ⟨⟨[], [], 1, 1⟩, []⟩ (some "X") none =
      ⟨⟨⟨[], [], 1, 1⟩, []⟩, [Flash.error "You do not have permission to do that."],
        Outcome.redirect "gallery"⟩ :=
  (claim1_admin_gate (some "public") (by decide)).1 ⟨⟨[], [], 1, 1⟩, []⟩ (some "X") none

/-- Claim C9: add_card invoked by an admin with an empty or missing name
performs no mutation and produces no user-visible message at all — it
silently redirects back to the gallery view — in contrast to edit_card,
which flashes a validation error for an empty name. -/
theorem claim9_add_card_empty_name (s : AppState) (card_name parent_id : Option String)
    (h : card_name = none ∨ card_name = some "") :
    add_card (some "admin") s card_name parent_id = ⟨s, [], Outcome.redirect "gallery"⟩ ∧
    (∀ cid c, findCard s.db.cards cid = some c →
      (edit_card (some "admin") s cid card_name).flashes =
        [Flash.error "New name cannot be empty."]) := by
  constructor
  · rcases h with rfl | rfl <;> simp [add_card]
  · intro cid c hc
    rcases h with rfl | rfl <;> simp [edit_card, hc]

/-- Witness for C9: a concrete admin add_card call with a missing name. -/
theorem claim9_add_card_empty_name_witness :
    add_card (some "admin") ⟨⟨[⟨1, "Root", none⟩], [], 2, 1⟩, []⟩ none none =
      ⟨⟨⟨[⟨1, "Root", none⟩], [], 2, 1⟩, []⟩, [], Outcome.redirect "gallery"⟩ :=
  (claim9_add_card_empty_name ⟨⟨[⟨1, "Root", none⟩], [], 2, 1⟩, []⟩ none none (Or.inl rfl)).1

/-- Claim C8: edit_card on an existing card with an empty new name leaves
the stored card name unchanged and flashes a validation error; with a
non-empty new name it renames the card in place and commits. -/
theorem claim8_edit_card (s : AppState) (cid : Int) (card : Card)
    (hfind : findCard s.db.cards cid = some card) :
    (edit_card (some "admin") s cid none =
      ⟨s, [Flash.error "New name cannot be empty."], Outcome.redirect "gallery"⟩) ∧
    (edit_card (some "admin") s cid (some "") =
      ⟨s, [Flash.error "New name cannot be empty."], Outcome.redirect "gallery"⟩) ∧
    (∀ nm, nm ≠ "" →
      edit_card (some "admin") s cid (some nm) =
        ⟨⟨⟨s.db.cards.map (fun c => if c.id == cid then { c with name := nm } else c),
            s.db.images, s.db.nextCardId, s.db.nextImageId⟩, s.fileStore⟩,
          [Flash.success ("Card renamed to \"" ++ nm ++ "\".")], Outcome.redirect "gallery"⟩) := by
  refine ⟨?_, ?_, ?_⟩
  · simp [edit_card, hfind]
  · simp [edit_card, hfind]
  · intro nm hnm
    simp [edit_card, hfind, hnm]

/-- Witness for C8 on a one-card state. -/
theorem claim8_edit_card_witness :
    edit_card (some "admin") ⟨⟨[⟨1, "Old", none⟩], [], 2, 1⟩, []⟩ 1 (some "") =
      ⟨⟨⟨[⟨1, "Old", none⟩], [], 2, 1⟩, []⟩, [Flash.error "New name cannot be empty."],
        Outcome.redirect "gallery"⟩ :=
  (claim8_edit_card ⟨⟨[⟨1, "Old", none⟩], [], 2, 1⟩, []⟩ 1 ⟨1, "Old", none⟩ (by decide)).2.1

/-- Claim C4: upload_folder derives the new card's name from the first
file's original path: if that path contains a separator, the name is the
text before the first separator; otherwise the name is the generic label
"Uploaded Files"; and the single card it creates is always top-level
(parent null), regardless of input. -/
theorem claim4_folder_card_name (s : AppState) (f : UploadFile) (rest : List UploadFile)
    (hnr : ∀ g ∈ f :: rest, g.saveRaises = false) :
    (upload_folder (some "admin") s (f :: rest)).state.db.cards =
      s.db.cards ++ [⟨s.db.nextCardId,
        (if '/' ∈ f.filename.data then
          String.mk (f.filename.data.takeWhile (fun c => c ≠ '/'))
        else "Uploaded Files"), none⟩] := by
  obtain ⟨acc', newImgs, heq, -, -, -, -, -, -, -, -⟩ :=
    folderFiles_ok s.db.nextCardId (f :: rest) ⟨s.fileStore, [], s.db.nextImageId, 0, []⟩
      (fun g hg _ => hnr g hg)
  simp only [upload_folder]
  rw [heq]
  by_cases hsep : '/' ∈ f.filename.data
  · simp [folderCardName_sep f rest hsep, hsep]
  · simp [folderCardName_no_sep f rest hsep, hsep]

/-- Witness for C4: a two-file folder upload whose first path is
"Trip/a.jpg" creates the top-level card "Trip". -/
theorem claim4_folder_card_name_witness :
    (upload_folder (some "admin") ⟨⟨[], [], 1, 1⟩, []⟩
        [⟨"Trip/a.jpg", false, "e"⟩, ⟨"Trip/b.png", false, "e"⟩]).state.db.cards =
      [] ++ [⟨1,
        (if '/' ∈ ("Trip/a.jpg" : String).data then
          String.mk (("Trip/a.jpg" : String).data.takeWhile (fun c => c ≠ '/'))
        else "Uploaded Files"), none⟩] :=
  claim4_folder_card_name ⟨⟨[], [], 1, 1⟩, []⟩ ⟨"Trip/a.jpg", false, "e"⟩
    [⟨"Trip/b.png", false, "e"⟩] (by decide)

theorem folderFiles_all_invalid (cid : Int) :
    ∀ (files : List UploadFile) (acc : UploadAcc),
      (∀ g ∈ files, validUpload g = false) →
      folderFiles cid files acc = Except.ok acc := by
  intro files
  induction files with
  | nil => intro acc _; rfl
  | cons f fs ih =>
    intro acc h
    rw [folderFiles_cons_skip cid f fs acc (h f (List.mem_cons_self f fs))]
    exact ih acc (fun g hg => h g (List.mem_cons_of_mem f hg))

/-- Claim C10: upload_folder with a non-empty file list always creates and
commits the new top-level card even when every file in the batch fails the
extension check: the operation reports success with an image count of 0
and the card persists with no images. -/
theorem claim10_folder_all_rejected (s : AppState) (f : UploadFile) (rest : List UploadFile)
    (hall : ∀ g ∈ f :: rest, allowed_file g.filename = false) :
    upload_folder (some "admin") s (f :: rest) =
      ⟨⟨⟨s.db.cards ++ [⟨s.db.nextCardId, folderCardName (f :: rest), none⟩], s.db.images,
          s.db.nextCardId + 1, s.db.nextImageId⟩, s.fileStore⟩,
        [Flash.success ("Folder \"" ++ folderCardName (f :: rest) ++
          "\" created with " ++ natStr 0 ++ " images.")],
        Outcome.redirect "gallery"⟩ := by
  have hinv : ∀ g ∈ f :: rest, validUpload g = false := by
    intro g hg
    unfold validUpload
    rw [hall g hg]
    simp
  simp only [upload_folder]
  rw [folderFiles_all_invalid s.db.nextCardId (f :: rest) _ hinv]
  simp

/-- Witness for C10: a folder upload where the only file has a disallowed
extension still creates (and commits) the card, with zero images. -/
theorem claim10_folder_all_rejected_witness :
    upload_folder (some "admin") ⟨⟨[], [], 1, 1⟩, []⟩ [⟨"Trip/notes.txt", false, "e"⟩] =
      ⟨⟨⟨[] ++ [⟨1, folderCardName [⟨"Trip/notes.txt", false, "e"⟩], none⟩], [], 2, 1⟩, []⟩,
        [Flash.success ("Folder \"" ++ folderCardName [⟨"Trip/notes.txt", false, "e"⟩] ++
          "\" created with 0 images.")],
        Outcome.redirect "gallery"⟩ :=
  claim10_folder_all_rejected ⟨⟨[], [], 1, 1⟩, []⟩ ⟨"Trip/notes.txt", false, "e"⟩ []
    (by decide)

/-- Claim C6: upload_image on an existing card processes each uploaded
file independently: a file with no filename is skipped silently; a file
with a disallowed extension is skipped with a per-file warning; every
other file is stored and an image row linking it to the card is created;
after the whole batch the success count is reported, or a generic failure
message when zero files succeeded — the operation is not all-or-nothing. -/
theorem claim6_upload_image (s : AppState) (cid : Int) (card : Card)
    (files : List UploadFile)
    (hfind : findCard s.db.cards cid = some card)
    (hnr : ∀ f ∈ files, f.saveRaises = false) :
    ∃ newImgs,
      (upload_image (some "admin") s (some cid) files).state.db.images =
        s.db.images ++ newImgs ∧
      newImgs.length = (files.filter validUpload).length ∧
      (∀ i ∈ newImgs, i.cardId = card.id ∧
        i.filename ∈ (upload_image (some "admin") s (some cid) files).state.fileStore) ∧
      (upload_image (some "admin") s (some cid) files).state.db.cards = s.db.cards ∧
      (upload_image (some "admin") s (some cid) files).state.fileStore.length =
        s.fileStore.length + (files.filter validUpload).length ∧
      (upload_image (some "admin") s (some cid) files).flashes = warnsOf files ++
        [if 0 < (files.filter validUpload).length then
          Flash.success (natStr (files.filter validUpload).length ++
            " image(s) uploaded successfully.")
        else Flash.error "No valid files were selected or uploaded."] ∧
      (upload_image (some "admin") s (some cid) files).outcome =
        Outcome.redirect "gallery" := by
  obtain ⟨acc', newImgs, heq, hpend, hlen, himgs, hcount, hwarns, hfslen, hsub, hnext⟩ :=
    processFiles_ok card.id files ⟨s.fileStore, [], s.db.nextImageId, 0, []⟩
      (fun f hf _ => hnr f hf)
  have hresult : upload_image (some "admin") s (some cid) files =
      (match processFiles card.id files ⟨s.fileStore, [], s.db.nextImageId, 0, []⟩ with
      | Except.error e => ⟨⟨s.db, e.2⟩, [], Outcome.serverError e.1⟩
      | Except.ok acc =>
        if acc.count > 0 then
          ⟨⟨⟨s.db.cards, s.db.images ++ acc.pending, s.db.nextCardId, acc.nextImageId⟩,
              acc.fileStore⟩,
            acc.warns ++ [Flash.success (natStr acc.count ++ " image(s) uploaded successfully.")],
            Outcome.redirect "gallery"⟩
        else
          ⟨⟨s.db, acc.fileStore⟩,
            acc.warns ++ [Flash.error "No valid files were selected or uploaded."],
            Outcome.redirect "gallery"⟩) := by
    simp [upload_image, hfind]
  rw [heq] at hresult
  dsimp only at hresult
  rw [List.nil_append] at hpend
  rw [Nat.zero_add] at hcount
  rw [List.nil_append] at hwarns
  by_cases hpos : 0 < (files.filter validUpload).length
  · rw [if_pos (show acc'.count > 0 by rw [hcount]; exact hpos), hpend, hwarns, hcount]
      at hresult
    refine ⟨newImgs, ?_, hlen, ?_, ?_, ?_, ?_, ?_⟩
    · rw [hresult]
    · intro i hi
      exact ⟨(himgs i hi).1, by rw [hresult]; exact (himgs i hi).2⟩
    · rw [hresult]
    · rw [hresult]; exact hfslen
    · rw [hresult, if_pos hpos]
    · rw [hresult]
  · rw [if_neg (show ¬(acc'.count > 0) by rw [hcount]; omega), hwarns] at hresult
    have hnil : newImgs = [] := List.length_eq_zero.mp (by omega)
    refine ⟨newImgs, ?_, hlen, ?_, ?_, ?_, ?_, ?_⟩
    · rw [hresult, hnil, List.append_nil]
    · intro i hi
      exact ⟨(himgs i hi).1, by rw [hresult]; exact (himgs i hi).2⟩
    · rw [hresult]
    · rw [hresult]; exact hfslen
    · rw [hresult, if_neg hpos]
    · rw [hresult]

/-- Claim C3: if an exception occurs during upload_folder's multi-step
transaction (modelled as a failing `file.save` on an accepted file), the
store is rolled back so that neither the newly created card row nor any
image rows inserted in that batch persist, and the exception's message is
flashed to the user; however, any file already written to the File Store
before the exception remains on disk and is not cleaned up (the store
keeps all its old files and has grown by one file per accepted file of
the prefix). -/
theorem claim3_folder_rollback (s : AppState) (pre : List UploadFile) (bad : UploadFile)
    (rest : List UploadFile)
    (hpre : ∀ f ∈ pre, f.saveRaises = false)
    (hbv : validUpload bad = true) (hbr : bad.saveRaises = true) :
    (upload_folder (some "admin") s (pre ++ bad :: rest)).state.db = s.db ∧
    (upload_folder (some "admin") s (pre ++ bad :: rest)).flashes =
      [Flash.error ("An error occurred during folder upload: " ++ bad.errMsg)] ∧
    (upload_folder (some "admin") s (pre ++ bad :: rest)).outcome =
      Outcome.redirect "gallery" ∧
    (∀ x ∈ s.fileStore, x ∈ (upload_folder (some "admin") s (pre ++ bad :: rest)).state.fileStore) ∧
    (upload_folder (some "admin") s (pre ++ bad :: rest)).state.fileStore.length =
      s.fileStore.length + (pre.filter validUpload).length := by
  obtain ⟨fsr, heq, hlen, hsub⟩ :=
    folderFiles_err s.db.nextCardId pre bad rest ⟨s.fileStore, [], s.db.nextImageId, 0, []⟩
      (fun f hf _ => hpre f hf) hbv hbr
  have hne : (pre ++ bad :: rest) ≠ [] := by
    intro hcon
    exact absurd (List.append_eq_nil.mp hcon).2 (List.cons_ne_nil bad rest)
  have hresult : upload_folder (some "admin") s (pre ++ bad :: rest) =
      ⟨⟨s.db, fsr⟩, [Flash.error ("An error occurred during folder upload: " ++ bad.errMsg)],
        Outcome.redirect "gallery"⟩ := by
    simp only [upload_folder]
    rw [if_neg (by simp), if_neg (by simp [List.isEmpty_iff, hne])]
    rw [heq]
  exact ⟨by rw [hresult], by rw [hresult], by rw [hresult],
    fun x hx => by rw [hresult]; exact hsub x hx, by rw [hresult]; exact hlen⟩

/-- Claim C2: delete_card on an existing card deletes the card's row and,
via cascade, every descendant card row and all image rows of the card and
of its descendants; from the File Store it removes only the files of the
card's direct images (tolerating a missing file), and files referenced by
images on descendant cards are never removed from the File Store.
(The File Store holds distinct filenames and image rows reference distinct
files, the data-model invariants of §3 of the specification.) -/
theorem claim2_delete_card (s : AppState) (cid : Int) (card : Card)
    (hfind : findCard s.db.cards cid = some card)
    (hfs : s.fileStore.Nodup)
    (hfn : (s.db.images.map Image.filename).Nodup) :
    (∀ c ∈ (delete_card (some "admin") s cid).state.db.cards, c.id ≠ cid) ∧
    (∀ x, Desc s.db.cards cid x →
      ∀ c ∈ (delete_card (some "admin") s cid).state.db.cards, c.id ≠ x) ∧
    (∀ img ∈ s.db.images, (img.cardId = cid ∨ Desc s.db.cards cid img.cardId) →
      img ∉ (delete_card (some "admin") s cid).state.db.images) ∧
    (∀ img ∈ s.db.images, img.cardId = cid →
      img.filename ∉ (delete_card (some "admin") s cid).state.fileStore) ∧
    (∀ f ∈ s.fileStore,
      (∀ img ∈ s.db.images, img.cardId = cid → img.filename ≠ f) →
      f ∈ (delete_card (some "admin") s cid).state.fileStore) ∧
    (∀ img ∈ s.db.images, Desc s.db.cards cid img.cardId → img.cardId ≠ cid →
      img.filename ∈ s.fileStore →
      img.filename ∈ (delete_card (some "admin") s cid).state.fileStore) := by
  have hid : card.id = cid := (findCard_eq hfind).2
  subst hid
  have hresult : delete_card (some "admin") s card.id =
      ⟨⟨⟨s.db.cards.filter (fun c => !((deletedIds s.db.cards card.id).contains c.id)),
          s.db.images.filter (fun i => !((deletedIds s.db.cards card.id).contains i.cardId)),
          s.db.nextCardId, s.db.nextImageId⟩,
        (s.db.images.filter (fun i => i.cardId == card.id)).foldl
          (fun fs i => fs.erase i.filename) s.fileStore⟩,
        [Flash.success ("Card \"" ++ card.name ++ "\" and all its contents deleted.")],
        Outcome.redirect "gallery"⟩ := by
    simp [delete_card, hfind]
  have hfold : (s.db.images.filter (fun i => i.cardId == card.id)).foldl
      (fun fs i => fs.erase i.filename) s.fileStore =
      eraseAll s.fileStore
        ((s.db.images.filter (fun i => i.cardId == card.id)).map Image.filename) := by
    unfold eraseAll
    rw [List.foldl_map]
  have hself : card.id ∈ deletedIds s.db.cards card.id := mem_deletedIds_self _ _
  refine ⟨?_, ?_, ?_, ?_, ?_, ?_⟩
  · intro c hc
    rw [hresult] at hc
    obtain ⟨-, hpred⟩ := List.mem_filter.mp hc
    rw [Bool.not_eq_true'] at hpred
    exact fun hcon => contains_eq_false_iff.mp hpred (hcon ▸ hself)
  · intro x hdesc c hc
    rw [hresult] at hc
    obtain ⟨-, hpred⟩ := List.mem_filter.mp hc
    rw [Bool.not_eq_true'] at hpred
    exact fun hcon => contains_eq_false_iff.mp hpred (hcon ▸ desc_mem_deletedIds hdesc)
  · intro img _ hdel hmem
    rw [hresult] at hmem
    obtain ⟨-, hpred⟩ := List.mem_filter.mp hmem
    rw [Bool.not_eq_true'] at hpred
    refine contains_eq_false_iff.mp hpred ?_
    rcases hdel with hroot | hdesc
    · exact hroot ▸ hself
    · exact desc_mem_deletedIds hdesc
  · intro img himg hcardid
    rw [hresult]
    show img.filename ∉ _
    rw [hfold]
    apply not_mem_eraseAll _ _ _ hfs
    exact List.mem_map_of_mem _ (List.mem_filter.mpr ⟨himg, beq_iff_eq.mpr hcardid⟩)
  · intro f hf hnotdirect
    rw [hresult]
    show f ∈ _
    rw [hfold]
    apply mem_eraseAll_of_not_mem _ _ _ _ hf
    intro hmem
    obtain ⟨img', himg', hfn'⟩ := List.mem_map.mp hmem
    obtain ⟨himg'mem, hbeq⟩ := List.mem_filter.mp himg'
    exact hnotdirect img' himg'mem (beq_iff_eq.mp hbeq) hfn'
  · intro img himg hdesc hnotroot hinstore
    rw [hresult]
    show img.filename ∈ _
    rw [hfold]
    apply mem_eraseAll_of_not_mem _ _ _ _ hinstore
    intro hmem
    obtain ⟨img', himg', hfn'⟩ := List.mem_map.mp hmem
    obtain ⟨himg'mem, hbeq⟩ := List.mem_filter.mp himg'
    have heqimg : img' = img :=
      List.inj_on_of_nodup_map hfn himg'mem himg hfn'
    rw [heqimg] at hbeq
    exact hnotroot (beq_iff_eq.mp hbeq)

/-- Claim C5: save_file sanitizes the uploaded file's original name, and
when a file of that sanitized name already exists in the upload directory
it appends an incrementing numeric suffix before the extension until a
free name is found; the filename it returns never equals the name of any
file existing in the store at call time, so two same-named files saved in
one batch get two distinct stored filenames. -/
theorem claim5_save_file :
    (∀ (store : List String) (orig : String), (save_file store orig).1 ∉ store) ∧
    (∀ (store : List String) (orig : String),
      (save_file store orig).1 = secure_filename orig ∨
      (secure_filename orig ∈ store ∧ ∃ k, 1 ≤ k ∧ (save_file store orig).1 =
        candName (splitext (secure_filename orig)).1 (splitext (secure_filename orig)).2 k)) ∧
    (∀ (store : List String) (o1 o2 : String),
      (save_file (save_file store o1).2 o2).1 ≠ (save_file store o1).1) := by
  refine ⟨save_file_not_mem, ?_, ?_⟩
  · intro store orig
    by_cases hfn : secure_filename orig ∈ store
    · right
      refine ⟨hfn, ?_⟩
      have hshape := saveLoop_shape store (splitext (secure_filename orig)).1
        (splitext (secure_filename orig)).2 (store.length + 1) 1 (secure_filename orig)
      rcases hshape with h1 | ⟨k, hk, h2⟩
      · exfalso
        have hnm := save_file_not_mem store orig
        rw [show (save_file store orig).1 = saveLoop store (splitext (secure_filename orig)).1
          (splitext (secure_filename orig)).2 (store.length + 1) 1 (secure_filename orig)
          from rfl, h1] at hnm
        exact hnm hfn
      · exact ⟨k, hk, h2⟩
    · left
      show saveLoop store (splitext (secure_filename orig)).1
        (splitext (secure_filename orig)).2 (store.length + 1) 1 (secure_filename orig) = _
      exact saveLoop_stable store _ _ store.length 1 _ hfn
  · intro store o1 o2 hcon
    have h2 := save_file_not_mem (save_file store o1).2 o2
    rw [hcon] at h2
    apply h2
    rw [save_file_store]
    exact List.mem_append_right _ (List.mem_singleton.mpr rfl)

/-- Witness for C6: a batch with one valid file, one nameless file and one
file with a disallowed extension, uploaded to an existing card. -/
theorem claim6_upload_image_witness :
    ∃ newImgs,
      (upload_image (some "admin") ⟨⟨[⟨1, "Root", none⟩], [], 2, 1⟩, []⟩ (some 1)
          [⟨"x.jpg", false, "e"⟩, ⟨"", false, "e"⟩, ⟨"bad.txt", false, "e"⟩]).state.db.images =
        [] ++ newImgs ∧
      newImgs.length = 1 ∧
      (∀ i ∈ newImgs, i.cardId = 1 ∧
        i.filename ∈ (upload_image (some "admin") ⟨⟨[⟨1, "Root", none⟩], [], 2, 1⟩, []⟩ (some 1)
          [⟨"x.jpg", false, "e"⟩, ⟨"", false, "e"⟩, ⟨"bad.txt", false, "e"⟩]).state.fileStore) ∧
      (upload_image (some "admin") ⟨⟨[⟨1, "Root", none⟩], [], 2, 1⟩, []⟩ (some 1)
          [⟨"x.jpg", false, "e"⟩, ⟨"", false, "e"⟩, ⟨"bad.txt", false, "e"⟩]).state.db.cards =
        [⟨1, "Root", none⟩] ∧
      (upload_image (some "admin") ⟨⟨[⟨1, "Root", none⟩], [], 2, 1⟩, []⟩ (some 1)
          [⟨"x.jpg", false, "e"⟩, ⟨"", false, "e"⟩, ⟨"bad.txt", false, "e"⟩]).state.fileStore.length =
        1 ∧
      (upload_image (some "admin") ⟨⟨[⟨1, "Root", none⟩], [], 2, 1⟩, []⟩ (some 1)
          [⟨"x.jpg", false, "e"⟩, ⟨"", false, "e"⟩, ⟨"bad.txt", false, "e"⟩]).flashes =
        [Flash.error "File \"bad.txt\" is not an allowed type.",
          Flash.success "1 image(s) uploaded successfully."] ∧
      (upload_image (some "admin") ⟨⟨[⟨1, "Root", none⟩], [], 2, 1⟩, []⟩ (some 1)
          [⟨"x.jpg", false, "e"⟩, ⟨"", false, "e"⟩, ⟨"bad.txt", false, "e"⟩]).outcome =
        Outcome.redirect "gallery" :=
  claim6_upload_image ⟨⟨[⟨1, "Root", none⟩], [], 2, 1⟩, []⟩ 1 ⟨1, "Root", none⟩
    [⟨"x.jpg", false, "e"⟩, ⟨"", false, "e"⟩, ⟨"bad.txt", false, "e"⟩] (by decide) (by decide)

/-- Witness for C3: a folder batch whose second file's save raises after
the first file was already written. -/
theorem claim3_folder_rollback_witness :
    (upload_folder (some "admin") ⟨⟨[], [], 1, 1⟩, []⟩
        [⟨"Trip/a.jpg", false, "e"⟩, ⟨"Trip/b.png", true, "disk full"⟩]).state.db =
      ⟨[], [], 1, 1⟩ ∧
    (upload_folder (some "admin") ⟨⟨[], [], 1, 1⟩, []⟩
        [⟨"Trip/a.jpg", false, "e"⟩, ⟨"Trip/b.png", true, "disk full"⟩]).flashes =
      [Flash.error "An error occurred during folder upload: disk full"] ∧
    (upload_folder (some "admin") ⟨⟨[], [], 1, 1⟩, []⟩
        [⟨"Trip/a.jpg", false, "e"⟩, ⟨"Trip/b.png", true, "disk full"⟩]).outcome =
      Outcome.redirect "gallery" ∧
    (∀ x ∈ ([] : List String),
      x ∈ (upload_folder (some "admin") ⟨⟨[], [], 1, 1⟩, []⟩
        [⟨"Trip/a.jpg", false, "e"⟩, ⟨"Trip/b.png", true, "disk full"⟩]).state.fileStore) ∧
    (upload_folder (some "admin") ⟨⟨[], [], 1, 1⟩, []⟩
        [⟨"Trip/a.jpg", false, "e"⟩, ⟨"Trip/b.png", true, "disk full"⟩]).state.fileStore.length =
      1 :=
  claim3_folder_rollback ⟨⟨[], [], 1, 1⟩, []⟩ [⟨"Trip/a.jpg", false, "e"⟩]
    ⟨"Trip/b.png", true, "disk full"⟩ [] (by decide) (by decide) (by decide)

/-- Witness for C2: deleting the root of a two-card chain whose child owns
an image; the root's file goes, the child's file stays. -/
theorem claim2_delete_card_witness :
    (∀ c ∈ (delete_card (some "admin")
        ⟨⟨[⟨1, "Root", none⟩, ⟨2, "Child", some 1⟩], [⟨1, "a.jpg", 1⟩, ⟨2, "b.jpg", 2⟩], 3, 3⟩,
          ["a.jpg", "b.jpg"]⟩ 1).state.db.cards, c.id ≠ 1) ∧
    (∀ x, Desc [⟨1, "Root", none⟩, ⟨2, "Child", some 1⟩] 1 x →
      ∀ c ∈ (delete_card (some "admin")
        ⟨⟨[⟨1, "Root", none⟩, ⟨2, "Child", some 1⟩], [⟨1, "a.jpg", 1⟩, ⟨2, "b.jpg", 2⟩], 3, 3⟩,
          ["a.jpg", "b.jpg"]⟩ 1).state.db.cards, c.id ≠ x) ∧
    (∀ img ∈ [(⟨1, "a.jpg", 1⟩ : Image), ⟨2, "b.jpg", 2⟩],
      (img.cardId = 1 ∨ Desc [⟨1, "Root", none⟩, ⟨2, "Child", some 1⟩] 1 img.cardId) →
      img ∉ (delete_card (some "admin")
        ⟨⟨[⟨1, "Root", none⟩, ⟨2, "Child", some 1⟩], [⟨1, "a.jpg", 1⟩, ⟨2, "b.jpg", 2⟩], 3, 3⟩,
          ["a.jpg", "b.jpg"]⟩ 1).state.db.images) ∧
    (∀ img ∈ [(⟨1, "a.jpg", 1⟩ : Image), ⟨2, "b.jpg", 2⟩], img.cardId = 1 →
      img.filename ∉ (delete_card (some "admin")
        ⟨⟨[⟨1, "Root", none⟩, ⟨2, "Child", some 1⟩], [⟨1, "a.jpg", 1⟩, ⟨2, "b.jpg", 2⟩], 3, 3⟩,
          ["a.jpg", "b.jpg"]⟩ 1).state.fileStore) ∧
    (∀ f ∈ ["a.jpg", "b.jpg"],
      (∀ img ∈ [(⟨1, "a.jpg", 1⟩ : Image), ⟨2, "b.jpg", 2⟩], img.cardId = 1 →
        img.filename ≠ f) →
      f ∈ (delete_card (some "admin")
        ⟨⟨[⟨1, "Root", none⟩, ⟨2, "Child", some 1⟩], [⟨1, "a.jpg", 1⟩, ⟨2, "b.jpg", 2⟩], 3, 3⟩,
          ["a.jpg", "b.jpg"]⟩ 1).state.fileStore) ∧
    (∀ img ∈ [(⟨1, "a.jpg", 1⟩ : Image), ⟨2, "b.jpg", 2⟩],
      Desc [⟨1, "Root", none⟩, ⟨2, "Child", some 1⟩] 1 img.cardId → img.cardId ≠ 1 →
      img.filename ∈ ["a.jpg", "b.jpg"] →
      img.filename ∈ (delete_card (some "admin")
        ⟨⟨[⟨1, "Root", none⟩, ⟨2, "Child", some 1⟩], [⟨1, "a.jpg", 1⟩, ⟨2, "b.jpg", 2⟩], 3, 3⟩,
          ["a.jpg", "b.jpg"]⟩ 1).state.fileStore) :=
  claim2_delete_card
    ⟨⟨[⟨1, "Root", none⟩, ⟨2, "Child", some 1⟩], [⟨1, "a.jpg", 1⟩, ⟨2, "b.jpg", 2⟩], 3, 3⟩,
      ["a.jpg", "b.jpg"]⟩ 1 ⟨1, "Root", none⟩ (by decide) (by decide) (by decide)

end Gallery
